import Mathlib

/-!
# MemoScholar — verification of the ranking-core specification

A shallow embedding of the MemoScholar recommendation core and of the
frontend feedback handling, with theorems settling the specification's
claims.  Frontend functions (`applyFeedbackToItems`, `formatNumber`,
`handleItemFeedback`, `handleMoveItem`) are translated from the
TypeScript sources.  The backend ranking core (Jaccard scorer, switching
ensemble, impression ledger, candidate stager) is not present in the
repository sources — only its SQL table declarations are — so those
components are modelled from the specification, as marked on each
definition.
-/

namespace MemoScholar

/-- Feedback value carried by a frontend item (`"accept" | "reject"`). -/
inductive Feedback where
  | accept
  | reject
deriving DecidableEq, Repr

/-! ## Similarity Scorer (Jaccard) -/

/-- Modelled from the spec: the Similarity Scorer
(`score(project_features, item_features) -> float in [0,1]`) is absent from
the repository sources (only the `project_features` / `item_features`
tables exist).  Per §4.2, the score is the Jaccard coefficient
|A∩B|/|A∪B| over the union of all feature tokens, with the explicit
policy that two empty sets score 0. -/
def jaccard (A B : Finset String) : ℚ :=
  if (A ∪ B).card = 0 then 0
  else ((A ∩ B).card : ℚ) / ((A ∪ B).card : ℚ)

/-! ## Switching Ensemble -/

/-- Clamp a score into [0,1], as required by §4.4 (`final` is clamped). -/
def clamp01 (x : ℚ) : ℚ := max 0 (min 1 x)

/-- Modelled from the spec: the Switching Ensemble
(`combine(content_score, cf_signal_or_none, context) -> float`) is absent
from the repository sources.  Per §4.4: when CF coverage exists and the
project has at least one prior feedback event, blend
`α·content + (1-α)·cf`; otherwise fall back to the content score alone;
the result is clamped to [0,1]. -/
def combine (content : ℚ) (cf : Option ℚ) (feedbackCount : ℕ) (alpha : ℚ) : ℚ :=
  match cf with
  | some c =>
      if 1 ≤ feedbackCount then clamp01 (alpha * content + (1 - alpha) * c)
      else clamp01 content
  | none => clamp01 content

/-! ## Impression Ledger -/

/-- A row of the `rec_impressions` table: the (project, target_type,
target_id) triple covered by `UNIQUE KEY uniq_proj_target`. -/
structure Impression where
  project_id : ℕ
  target_type : String
  target_id : ℕ
deriving DecidableEq, Repr

/-- Modelled from the spec: the Impression Ledger operation
`record_shown(project, item)` is absent from the repository sources; only
the `rec_impressions` table with its
`UNIQUE KEY uniq_proj_target (project_id, target_type, target_id)` is
declared.  Per §4.5 the insert is idempotent: inserting an
already-present triple is a no-op, not an error, which is exactly the
semantics the unique key gives an `INSERT IGNORE`-style write. -/
def record_shown (rows : List Impression) (i : Impression) : List Impression :=
  if i ∈ rows then rows else rows ++ [i]

/-- Modelled from the spec: `has_been_shown(project, item) -> bool` is a
pure membership test against the `rec_impressions` rows (§4.5). -/
def has_been_shown (rows : List Impression) (i : Impression) : Bool :=
  decide (i ∈ rows)

/-! ## Candidate Stager -/

/-- Batch bound: the stager keeps at most 15 items per project
("Staging area for per-project recommendation candidates (15 at a
time)", `youtube_current_recs` in tables.sql; §4.6 "bounded top-K batch
(K fixed, e.g., 15)"). -/
def batchLimit : ℕ := 15

/-- Ordering used by the stager's stable descending sort on index-tagged
scored candidates: higher score first, exact score ties broken by the
original candidate-pool position (§4.6 step 1). -/
def recRel {α : Type} (x y : ℕ × (α × ℚ)) : Prop :=
  y.2.2 < x.2.2 ∨ (x.2.2 = y.2.2 ∧ x.1 ≤ y.1)

instance {α : Type} : DecidableRel (recRel (α := α)) := fun x y => by
  unfold recRel
  infer_instance

instance {α : Type} : IsTotal (ℕ × (α × ℚ)) (recRel (α := α)) := by
  constructor
  intro x y
  rcases lt_trichotomy x.2.2 y.2.2 with h | h | h
  · exact Or.inr (Or.inl h)
  · rcases le_total x.1 y.1 with h1 | h1
    · exact Or.inl (Or.inr ⟨h, h1⟩)
    · exact Or.inr (Or.inr ⟨h.symm, h1⟩)
  · exact Or.inl (Or.inl h)

instance {α : Type} : IsTrans (ℕ × (α × ℚ)) (recRel (α := α)) := by
  constructor
  intro a b c hab hbc
  rcases hab with hab | ⟨hab, hab'⟩ <;> rcases hbc with hbc | ⟨hbc, hbc'⟩
  · exact Or.inl (lt_trans hbc hab)
  · exact Or.inl (hbc ▸ hab)
  · exact Or.inl (hab ▸ hbc)
  · exact Or.inr ⟨hab.trans hbc, le_trans hab' hbc'⟩

/-- Modelled from the spec: the Candidate Stager's sort-and-tag phase is
absent from the repository sources (only the `youtube_current_recs`
staging table is declared).  Per §4.6 steps 1-2: tag each scored
candidate with its original pool position, stable-sort descending by
score (ties by pool position), and keep the top `batchLimit` entries. -/
def stageBatchTagged {α : Type} (pool : List (α × ℚ)) : List (ℕ × (α × ℚ)) :=
  (List.insertionSort recRel pool.enum).take batchLimit

/-- Modelled from the spec: §4.6 step 2 — assign dense rank positions
1..min(K, N) to the sorted batch. -/
def assignRanks {β : Type} (l : List β) : List (β × ℕ) :=
  l.enum.map fun p => (p.2, p.1 + 1)

/-- Modelled from the spec: the Candidate Stager (§4.6) — produce the
bounded, ranked batch for a scored, deduplicated candidate pool. -/
def stageBatch {α : Type} (pool : List (α × ℚ)) : List ((α × ℚ) × ℕ) :=
  assignRanks ((stageBatchTagged pool).map Prod.snd)

/-! ## Impression-filtered generation pipeline -/

/-- An item identity as used by the ledger and the feedback store:
(target_type, target_id), scoped to one project. -/
structure Target where
  ttype : String
  tid : ℕ
deriving DecidableEq, Repr

/-- Modelled from the spec: `generate_recommendations(project)` (§6) is
absent from the repository sources.  Per §4.5/§4.6: filter the scored
candidate pool through the Impression Ledger (only unseen items are
staged), stage the bounded ranked batch, and record every staged item as
shown. -/
def generate_recommendations (ledger : Finset Target) (pool : List (Target × ℚ)) :
    List ((Target × ℚ) × ℕ) × Finset Target :=
  let fresh := pool.filter fun p => decide (p.1 ∉ ledger)
  let batch := stageBatch fresh
  (batch, ledger ∪ (batch.map fun e => e.1.1).toFinset)

/-- Modelled from the spec: a sequence of regeneration calls for one
project, threading the Impression Ledger state; returns all produced
batches and the final ledger. -/
def run_generations (ledger : Finset Target) (pools : List (List (Target × ℚ))) :
    List (List ((Target × ℚ) × ℕ)) × Finset Target :=
  match pools with
  | [] => ([], ledger)
  | p :: ps =>
      let r := generate_recommendations ledger p
      let rest := run_generations r.2 ps
      (r.1 :: rest.1, rest.2)

/-! ## Theorems: C5, C6, C3 -/

/-- C5: for all feature sets A and B, `jaccard A B = jaccard B A`
(symmetry); `jaccard A A = 1` whenever A is non-empty;
`jaccard ∅ ∅ = 0` by explicit policy; and the score always lies
in [0,1]. -/
theorem jaccard_properties (A B : Finset String) :
    jaccard A B = jaccard B A ∧
    (A.Nonempty → jaccard A A = 1) ∧
    jaccard (∅ : Finset String) (∅ : Finset String) = 0 ∧
    0 ≤ jaccard A B ∧ jaccard A B ≤ 1 := by
  refine ⟨?_, ?_, ?_, ?_, ?_⟩
  · simp [jaccard, Finset.union_comm, Finset.inter_comm]
  · intro hA
    have hcard : A.card ≠ 0 := by
      simpa [Finset.card_eq_zero] using hA.ne_empty
    simp [jaccard, Finset.union_self, Finset.inter_self, hcard]
  · simp [jaccard]
  · unfold jaccard
    split
    · exact le_refl 0
    · positivity
  · unfold jaccard
    split
    · exact zero_le_one
    · rename_i h
      rw [div_le_one (by positivity)]
      exact_mod_cast Finset.card_le_card Finset.inter_subset_union

/-- C5 witness: the properties evaluated at the concrete feature sets
A = {"type:paper", "keyword:gnn"} and B = {"type:paper"}. -/
theorem jaccard_properties_witness :
    jaccard {"type:paper", "keyword:gnn"} {"type:paper"} = 1 / 2 ∧
    jaccard {"type:paper", "keyword:gnn"} {"type:paper", "keyword:gnn"} = 1 := by
  constructor
  · have h1 : (({"type:paper", "keyword:gnn"} : Finset String) ∩ {"type:paper"}).card = 1 := by
      decide
    have h2 : (({"type:paper", "keyword:gnn"} : Finset String) ∪ {"type:paper"}).card = 2 := by
      decide
    rw [jaccard, h2, h1]
    norm_num
  · exact (jaccard_properties {"type:paper", "keyword:gnn"} {"type:paper"}).2.1
      ⟨"type:paper", by simp⟩

/-- C6: in the cold-start situation (no CF coverage, or a project with
zero accumulated feedback) the Switching Ensemble returns exactly the
content score alone (given that the content score, a Jaccard value, lies
in [0,1]); and in all cases the combined score is clamped to [0,1]. -/
theorem combine_cold_start (content : ℚ) (cf : Option ℚ) (fc : ℕ) (a : ℚ) :
    ((cf = none ∨ fc = 0) → 0 ≤ content → content ≤ 1 →
      combine content cf fc a = content) ∧
    (0 ≤ combine content cf fc a ∧ combine content cf fc a ≤ 1) := by
  have hclamp : ∀ x : ℚ, 0 ≤ clamp01 x ∧ clamp01 x ≤ 1 := by
    intro x
    constructor
    · exact le_max_left 0 _
    · exact max_le zero_le_one (min_le_left 1 x)
  have hid : 0 ≤ content → content ≤ 1 → clamp01 content = content := by
    intro h0 h1
    unfold clamp01
    rw [min_eq_right h1, max_eq_right h0]
  constructor
  · rintro (hcf | hfc) h0 h1
    · subst hcf
      simpa [combine] using hid h0 h1
    · subst hfc
      cases cf with
      | none => simpa [combine] using hid h0 h1
      | some c => simpa [combine] using hid h0 h1
  · cases cf with
    | none => exact hclamp content
    | some c =>
      by_cases h : 1 ≤ fc
      · simpa [combine, h] using hclamp _
      · simpa [combine, h] using hclamp _

/-- C6 witness: a brand-new project (feedback count 0) with CF coverage
present still gets exactly the content score, and the bounds hold. -/
theorem combine_cold_start_witness :
    combine (1 / 2) (some (9 / 10)) 0 (7 / 10) = 1 / 2 ∧
    0 ≤ combine (1 / 2) (some (9 / 10)) 0 (7 / 10) ∧
    combine (1 / 2) (some (9 / 10)) 0 (7 / 10) ≤ 1 := by
  have h := combine_cold_start (1 / 2) (some (9 / 10)) 0 (7 / 10)
  exact ⟨h.1 (Or.inr rfl) (by norm_num) (by norm_num), h.2⟩

/-- C3: `record_shown` is idempotent — recording the same
(project, target_type, target_id) impression twice leaves the ledger in
exactly the same state as recording it once; the second insert is a
no-op. -/
theorem record_shown_idempotent (rows : List Impression) (i : Impression) :
    record_shown (record_shown rows i) i = record_shown rows i := by
  unfold record_shown
  by_cases h : i ∈ rows
  · simp [h]
  · simp [h]

/-! ## Theorems: C2 (stager invariants) -/

/-- C2: for every staged candidate batch, the rank positions are the
dense sequence 1..N (no gaps or repeats); the batch holds exactly
min(15, pool size) items; the ranked items are the sorted tagged items
in order; scores are non-increasing along the batch; exact score ties
are ordered by original candidate-pool position (stable sort); and every
tagged entry is an entry of the original pool with its pool position. -/
theorem candidate_batch_invariants {α : Type} (pool : List (α × ℚ)) :
    (stageBatch pool).map Prod.snd = List.range' 1 (stageBatch pool).length ∧
    (stageBatch pool).length = min batchLimit pool.length ∧
    (stageBatch pool).map Prod.fst = (stageBatchTagged pool).map Prod.snd ∧
    List.Pairwise (fun x y => y.2.2 ≤ x.2.2) (stageBatchTagged pool) ∧
    List.Pairwise (fun x y => x.2.2 = y.2.2 → x.1 < y.1) (stageBatchTagged pool) ∧
    ∀ e ∈ stageBatchTagged pool, e ∈ pool.enum := by
  have hsub : List.Sublist (stageBatchTagged pool) (List.insertionSort recRel pool.enum) :=
    List.take_sublist _ _
  have hperm := List.perm_insertionSort (recRel (α := α)) pool.enum
  have hsorted := List.sorted_insertionSort (recRel (α := α)) pool.enum
  have hpair : List.Pairwise recRel (stageBatchTagged pool) :=
    List.Pairwise.sublist hsub hsorted
  have hnodup : ((stageBatchTagged pool).map Prod.fst).Nodup := by
    have h2 : ((List.insertionSort recRel pool.enum).map Prod.fst).Nodup :=
      ((hperm.map Prod.fst).nodup_iff).mpr (List.nodup_enum_map_fst pool)
    exact List.Nodup.sublist (hsub.map Prod.fst) h2
  have hne : List.Pairwise (fun x y : ℕ × (α × ℚ) => x.1 ≠ y.1) (stageBatchTagged pool) :=
    List.pairwise_map.mp hnodup
  have hlen_t : (stageBatchTagged pool).length = min batchLimit pool.length := by
    simp [stageBatchTagged, List.length_take, hperm.length_eq, List.enum_length]
  have hlen_b : (stageBatch pool).length = (stageBatchTagged pool).length := by
    simp [stageBatch, assignRanks, List.enum_length]
  refine ⟨?_, hlen_b.trans hlen_t, ?_, ?_, ?_, ?_⟩
  · simp only [stageBatch]
    generalize (stageBatchTagged pool).map Prod.snd = l
    simp only [assignRanks, List.map_map, List.length_map, List.enum_length, Function.comp]
    rw [List.range'_eq_map_range, ← List.enum_map_fst l, List.map_map]
    exact List.map_congr_left fun p _ => by simp [Nat.add_comm]
  · simp only [stageBatch]
    generalize (stageBatchTagged pool).map Prod.snd = l
    simp only [assignRanks, List.map_map]
    rw [show (Prod.fst ∘ fun p : ℕ × (α × ℚ) => (p.2, p.1 + 1)) = Prod.snd from rfl,
      List.enum_map_snd]
  · exact hpair.imp fun {x y} h => by
      rcases h with h | ⟨h, _⟩
      · exact le_of_lt h
      · exact le_of_eq h.symm
  · refine (hpair.and hne).imp fun {x y} h => ?_
    rcases h with ⟨hrel | ⟨_, hle⟩, hne1⟩
    · intro heq
      rw [heq] at hrel
      exact absurd hrel (lt_irrefl _)
    · intro _
      exact lt_of_le_of_ne hle hne1
  · exact fun e he => hperm.subset (hsub.subset he)

/-! ## Theorems: C4, C7 (generation pipeline) -/

/-- Every ranked entry of a staged batch carries an item of the input
pool. -/
theorem mem_pool_of_mem_stageBatch {α : Type} {e : (α × ℚ) × ℕ} {pool : List (α × ℚ)}
    (he : e ∈ stageBatch pool) : e.1 ∈ pool := by
  simp only [stageBatch, assignRanks, List.mem_map] at he
  obtain ⟨p, hp, rfl⟩ := he
  have h2 : p.2 ∈ (stageBatchTagged pool).map Prod.snd := by
    rw [← List.enum_map_snd ((stageBatchTagged pool).map Prod.snd)]
    exact List.mem_map_of_mem Prod.snd hp
  simp only [List.mem_map] at h2
  obtain ⟨q, hq, hq2⟩ := h2
  have hq3 : q ∈ pool.enum :=
    (List.perm_insertionSort (recRel (α := α)) pool.enum).subset
      ((List.take_sublist _ _).subset hq)
  show p.2 ∈ pool
  rw [← hq2, ← List.enum_map_snd pool]
  exact List.mem_map_of_mem Prod.snd hq3

/-- A generated batch only stages items that were not in the ledger. -/
theorem generate_fresh {L : Finset Target} {pool : List (Target × ℚ)} :
    ∀ e ∈ (generate_recommendations L pool).1, e.1.1 ∉ L := by
  intro e he
  simp only [generate_recommendations] at he
  have h1 := mem_pool_of_mem_stageBatch he
  have h2 := (List.mem_filter.mp h1).2
  simpa using h2

/-- Every staged item is recorded in the post-generation ledger. -/
theorem generate_staged_mem {L : Finset Target} {pool : List (Target × ℚ)} :
    ∀ e ∈ (generate_recommendations L pool).1, e.1.1 ∈ (generate_recommendations L pool).2 := by
  intro e he
  simp only [generate_recommendations] at he ⊢
  refine Finset.mem_union_right _ ?_
  rw [List.mem_toFinset]
  exact List.mem_map_of_mem _ he

/-- Generation only grows the Impression Ledger. -/
theorem generate_ledger_sub {L : Finset Target} {pool : List (Target × ℚ)} :
    L ⊆ (generate_recommendations L pool).2 := by
  simp only [generate_recommendations]
  exact Finset.subset_union_left

/-- A run of generations only grows the Impression Ledger. -/
theorem run_ledger_sub {L : Finset Target} {pools : List (List (Target × ℚ))} :
    L ⊆ (run_generations L pools).2 := by
  induction pools generalizing L with
  | nil => simp [run_generations]
  | cons p ps ih =>
      simp only [run_generations]
      exact subset_trans generate_ledger_sub ih

/-- C4: over any sequence of `generate_recommendations` calls, no batch
contains an item already in the Impression Ledger at the start; batches
produced at different times never share an item (an item staged by an
earlier regeneration is excluded from all later batches); and every
staged item ends up recorded in the final ledger. -/
theorem regeneration_never_repeats (L : Finset Target) (pools : List (List (Target × ℚ))) :
    (∀ b ∈ (run_generations L pools).1, ∀ e ∈ b, e.1.1 ∉ L) ∧
    List.Pairwise (fun b₁ b₂ => ∀ e₁ ∈ b₁, ∀ e₂ ∈ b₂, e₁.1.1 ≠ e₂.1.1)
      (run_generations L pools).1 ∧
    (∀ b ∈ (run_generations L pools).1, ∀ e ∈ b, e.1.1 ∈ (run_generations L pools).2) := by
  induction pools generalizing L with
  | nil => simp [run_generations]
  | cons p ps ih =>
      obtain ⟨ih1, ih2, ih3⟩ := ih (L := (generate_recommendations L p).2)
      refine ⟨?_, ?_, ?_⟩
      · intro b hb e he
        simp only [run_generations, List.mem_cons] at hb
        rcases hb with rfl | hb
        · exact generate_fresh e he
        · intro hmem
          exact ih1 b hb e he (generate_ledger_sub hmem)
      · simp only [run_generations]
        refine List.Pairwise.cons ?_ ih2
        intro b hb e1 he1 e2 he2 heq
        have h1 : e1.1.1 ∈ (generate_recommendations L p).2 := generate_staged_mem e1 he1
        have h2 : e2.1.1 ∉ (generate_recommendations L p).2 := ih1 b hb e2 he2
        exact h2 (heq ▸ h1)
      · intro b hb e he
        simp only [run_generations, List.mem_cons] at hb ⊢
        rcases hb with rfl | hb
        · exact run_ledger_sub (generate_staged_mem e he)
        · exact ih3 b hb e he

/-- Staging an empty candidate pool yields an empty batch. -/
theorem stageBatch_nil {α : Type} : stageBatch (α := α) [] = [] := rfl

/-- C7: when every supplied candidate has already been shown (the pool is
empty after impression filtering), `generate_recommendations` stages and
returns an empty batch as a valid result, leaving the ledger unchanged —
it is a total function here, so no error is raised and no partial batch
is produced. -/
theorem empty_filtered_pool_empty_batch (L : Finset Target) (pool : List (Target × ℚ))
    (h : ∀ p ∈ pool, p.1 ∈ L) :
    (generate_recommendations L pool).1 = [] ∧ (generate_recommendations L pool).2 = L := by
  have hfil : pool.filter (fun p => decide (p.1 ∉ L)) = [] := by
    rw [List.filter_eq_nil_iff]
    intro a ha
    simp [h a ha]
  constructor
  · show stageBatch (pool.filter fun p => decide (p.1 ∉ L)) = []
    rw [hfil]
    exact stageBatch_nil
  · show L ∪ ((stageBatch (pool.filter fun p => decide (p.1 ∉ L))).map fun e => e.1.1).toFinset = L
    rw [hfil, stageBatch_nil]
    simp

/-- C7 witness: a pool whose only candidate has already been shown
produces the empty batch. -/
theorem empty_filtered_pool_witness :
    (generate_recommendations {⟨"youtube", 1⟩} [(⟨"youtube", 1⟩, (1 : ℚ))]).1 = [] :=
  (empty_filtered_pool_empty_batch {⟨"youtube", 1⟩} [(⟨"youtube", 1⟩, (1 : ℚ))]
    (by decide)).1

/-- C2 witness: the batch invariants evaluated on the concrete pool
[("a",1), ("b",2), ("c",1)], including a concrete instantiation of the
pool-membership conjunct at the sorted head (1, ("b", 2)). -/
theorem candidate_batch_invariants_witness :
    (stageBatch [(("a" : String), (1 : ℚ)), ("b", 2), ("c", 1)]).map Prod.snd =
      List.range' 1 (stageBatch [(("a" : String), (1 : ℚ)), ("b", 2), ("c", 1)]).length ∧
    (stageBatch [(("a" : String), (1 : ℚ)), ("b", 2), ("c", 1)]).length = min batchLimit 3 ∧
    (1, (("b" : String), (2 : ℚ))) ∈
      ([(("a" : String), (1 : ℚ)), ("b", 2), ("c", 1)] : List (String × ℚ)).enum := by
  have h := candidate_batch_invariants [(("a" : String), (1 : ℚ)), ("b", 2), ("c", 1)]
  exact ⟨h.1, h.2.1, h.2.2.2.2.2 (1, ("b", 2)) (by decide)⟩

/-- C4 witness: two successive regenerations from an empty ledger, the
second pool re-offering the item staged by the first; batches stay
disjoint and the staged item is recorded in the final ledger. -/
theorem regeneration_never_repeats_witness :
    List.Pairwise (fun b₁ b₂ => ∀ e₁ ∈ b₁, ∀ e₂ ∈ b₂, e₁.1.1 ≠ e₂.1.1)
      (run_generations ∅
        [[(⟨"youtube", 1⟩, (1 : ℚ))], [(⟨"youtube", 1⟩, 1), (⟨"paper", 2⟩, 1)]]).1 ∧
    ((⟨"youtube", 1⟩, (1 : ℚ)), 1).1.1 ∈
      (run_generations ∅
        [[(⟨"youtube", 1⟩, (1 : ℚ))], [(⟨"youtube", 1⟩, 1), (⟨"paper", 2⟩, 1)]]).2 := by
  have h := regeneration_never_repeats ∅
    [[(⟨"youtube", 1⟩, (1 : ℚ))], [(⟨"youtube", 1⟩, 1), (⟨"paper", 2⟩, 1)]]
  exact ⟨h.2.1,
    h.2.2 [((⟨"youtube", 1⟩, (1 : ℚ)), 1)] (by decide) ((⟨"youtube", 1⟩, (1 : ℚ)), 1) (by decide)⟩

/-! ## Feedback records (likes) and their frontend reconstruction -/

/-- A row of the `likes` table (liked_disliked_id, project scope elided:
all records below belong to one project, as both frontend reconstruction
sites operate on one project's likes). -/
structure DBLike where
  liked_disliked_id : ℕ
  target_type : String
  target_id : ℕ
  isLiked : Bool
deriving DecidableEq, Repr

/-- A frontend item as far as feedback reconstruction is concerned
(`id` plus the `feedback` field set by `applyFeedbackToItems`). -/
structure FItem where
  id : ℕ
  feedback : Option Feedback
deriving DecidableEq, Repr

/-- The per-item body of `applyFeedbackToItems`
(src/frontend/memo-scholar/src/lib/mock.ts): filter the like records to
those matching this item's (target_type, target_id), then use the most
recent one (`itemLikes[itemLikes.length - 1]`, here `getLast?`) to set
"accept"/"reject", or leave the feedback unset when none match. -/
def reconstructFeedback (likes : List DBLike) (panelKind : String) (item : FItem) :
    Option Feedback :=
  let itemLikes := likes.filter fun like =>
    like.target_type == panelKind && like.target_id == item.id
  match itemLikes.getLast? with
  | some latestLike => some (if latestLike.isLiked then .accept else .reject)
  | none => none

/-- Embeds `applyFeedbackToItems` from src/frontend/memo-scholar/src/lib/mock.ts:
map every item to a copy whose feedback is reconstructed from the like
records. -/
def applyFeedbackToItems (items : List FItem) (likes : List DBLike) (panelKind : String) :
    List FItem :=
  items.map fun item => { item with feedback := reconstructFeedback likes panelKind item }

/-- The `latestLikes` grouping of `handleProjectSelect`
(src/frontend/memo-scholar/src/pages/Project.tsx), restricted to the
lookup of a single (target_type, target_id) key: fold over the like
records, keeping the record with the greatest `liked_disliked_id`
(a later record replaces an earlier one only when its id is strictly
greater). -/
def latestLike (likes : List DBLike) (ttype : String) (tid : ℕ) : Option DBLike :=
  likes.foldl (fun acc like =>
    if like.target_type == ttype && like.target_id == tid then
      match acc with
      | none => some like
      | some old =>
          if old.liked_disliked_id < like.liked_disliked_id then some like else some old
    else acc) none

/-- Any record produced by the `latestLike` fold either matches the key
and comes from the list, or was already the accumulator. -/
theorem latestLike_fold_mem (ttype : String) (tid : ℕ) (likes : List DBLike) :
    ∀ (acc : Option DBLike) (old : DBLike),
      likes.foldl (fun acc like =>
        if like.target_type == ttype && like.target_id == tid then
          match acc with
          | none => some like
          | some o =>
              if o.liked_disliked_id < like.liked_disliked_id then some like else some o
        else acc) acc = some old →
      (old ∈ likes ∧ (old.target_type == ttype && old.target_id == tid) = true) ∨
        acc = some old := by
  induction likes with
  | nil => exact fun acc old h => Or.inr h
  | cons l ls ih =>
      intro acc old h
      rw [List.foldl_cons] at h
      rcases ih _ old h with hm | hacc
      · exact Or.inl ⟨List.mem_cons_of_mem l hm.1, hm.2⟩
      · by_cases hl : (l.target_type == ttype && l.target_id == tid) = true
        · simp only [hl, if_true] at hacc
          cases acc with
          | none =>
              rw [Option.some.injEq] at hacc
              exact Or.inl ⟨hacc ▸ List.mem_cons_self l ls, hacc ▸ hl⟩
          | some o =>
              by_cases ho : o.liked_disliked_id < l.liked_disliked_id
              · simp only [ho, if_true, Option.some.injEq] at hacc
                exact Or.inl ⟨hacc ▸ List.mem_cons_self l ls, hacc ▸ hl⟩
              · simp only [ho, if_false] at hacc
                exact Or.inr hacc
        · simp only [hl, if_false] at hacc
          exact Or.inr hacc

/-- When like records carry strictly increasing `liked_disliked_id`
values in list order (the database serial), the Project.tsx grouping by
greatest id agrees with the "last record in list order" rule. -/
theorem latestLike_eq_getLast (likes : List DBLike) (ttype : String) (tid : ℕ)
    (hsorted : List.Pairwise (fun a b => a.liked_disliked_id < b.liked_disliked_id) likes) :
    latestLike likes ttype tid =
      (likes.filter fun like => like.target_type == ttype && like.target_id == tid).getLast? := by
  induction likes using List.reverseRecOn with
  | nil => rfl
  | append_singleton xs l ih =>
      rw [List.pairwise_append] at hsorted
      obtain ⟨hxs, -, hlt⟩ := hsorted
      rw [latestLike, List.foldl_append, List.foldl_cons, List.foldl_nil, List.filter_append]
      by_cases hl : (l.target_type == ttype && l.target_id == tid) = true
      · simp only [hl, if_true, List.filter_cons, List.filter_nil]
        cases hacc : latestLike xs ttype tid with
        | none =>
            rw [show xs.foldl _ none = latestLike xs ttype tid from rfl, hacc]
            simp [List.getLast?_concat]
        | some old =>
            rw [show xs.foldl _ none = latestLike xs ttype tid from rfl, hacc]
            have hold := latestLike_fold_mem ttype tid xs none old hacc
            rcases hold with ⟨hmem, -⟩ | hnone
            · have : old.liked_disliked_id < l.liked_disliked_id :=
                hlt old hmem l (List.mem_singleton_self l)
              simp [this, List.getLast?_concat]
            · exact absurd hnone (by simp)
      · simp only [hl, if_false, List.filter_cons, List.filter_nil]
        rw [show xs.foldl _ none = latestLike xs ttype tid from rfl, ih hxs]
        simp [hl]

/-- C1: feedback reconstruction never accumulates votes — (a) each item
of `applyFeedbackToItems` carries exactly the feedback reconstructed for
it; (b) that feedback is exactly the accept/reject of the most recent
matching like record (none when no record matches); (c) appending a new
record for the target supersedes all earlier records, whatever they
were; (d) with strictly increasing database ids, the Project.tsx
greatest-id grouping picks the same most-recent record. -/
theorem feedback_superseded (items : List FItem) (likes : List DBLike) (panelKind : String)
    (item : FItem) (l : DBLike) :
    (item ∈ items →
      { item with feedback := reconstructFeedback likes panelKind item } ∈
        applyFeedbackToItems items likes panelKind) ∧
    reconstructFeedback likes panelKind item =
      Option.map (fun latest => if latest.isLiked then Feedback.accept else Feedback.reject)
        ((likes.filter fun like =>
          like.target_type == panelKind && like.target_id == item.id).getLast?) ∧
    ((l.target_type == panelKind && l.target_id == item.id) = true →
      reconstructFeedback (likes ++ [l]) panelKind item =
        some (if l.isLiked then Feedback.accept else Feedback.reject)) ∧
    (List.Pairwise (fun a b => a.liked_disliked_id < b.liked_disliked_id) likes →
      latestLike likes panelKind item.id =
        (likes.filter fun like =>
          like.target_type == panelKind && like.target_id == item.id).getLast?) := by
  refine ⟨?_, ?_, ?_, ?_⟩
  · intro hmem
    exact List.mem_map_of_mem _ hmem
  · cases h : (likes.filter fun like =>
        like.target_type == panelKind && like.target_id == item.id).getLast? with
    | none => simp [reconstructFeedback, h]
    | some latest => simp [reconstructFeedback, h]
  · intro hmatch
    simp [reconstructFeedback, List.filter_append, hmatch, List.getLast?_concat]
  · exact latestLike_eq_getLast likes panelKind item.id

/-- C1 witness: a like followed by a dislike of the same target
reconstructs as a single "reject", and the greatest-id grouping agrees. -/
theorem feedback_superseded_witness :
    reconstructFeedback
        [⟨1, "youtube", 5, true⟩, ⟨2, "youtube", 5, false⟩] "youtube" ⟨5, none⟩ =
      some Feedback.reject ∧
    latestLike [⟨1, "youtube", 5, true⟩, ⟨2, "youtube", 5, false⟩] "youtube" 5 =
      some ⟨2, "youtube", 5, false⟩ := by
  have h := feedback_superseded [] [⟨1, "youtube", 5, true⟩] "youtube" ⟨5, none⟩
    ⟨2, "youtube", 5, false⟩
  constructor
  · exact h.2.2.1 (by decide)
  · have h4 := (feedback_superseded [] [⟨1, "youtube", 5, true⟩, ⟨2, "youtube", 5, false⟩]
      "youtube" ⟨5, none⟩ ⟨2, "youtube", 5, false⟩).2.2.2 (by decide)
    rw [h4]
    decide

/-! ## HomeScreen liked/disliked state -/

/-- A HomeScreen item as far as the liked/disliked lists are concerned:
its identity `id`, the optional `liked_disliked_id` database key, and
its feedback marker. -/
structure HItem where
  id : ℕ
  liked_disliked_id : Option ℕ
  feedback : Option Feedback
deriving DecidableEq, Repr

/-- The two HomeScreen list states (`likedItems`, `dislikedItems`). -/
structure HState where
  likedItems : List HItem
  dislikedItems : List HItem
deriving DecidableEq, Repr

/-- Embeds `handleItemFeedback` from
src/frontend/memo-scholar/src/pages/HomeScreen.tsx: on "accept", remove
the item's id from `dislikedItems` and append the updated item to
`likedItems` unless an item with that id is already there; "reject" is
symmetric. -/
def handleItemFeedback (s : HState) (item : HItem) (fb : Feedback) : HState :=
  match fb with
  | .accept =>
      { likedItems :=
          if s.likedItems.any fun i => i.id == item.id then s.likedItems
          else s.likedItems ++ [{ item with feedback := some Feedback.accept }],
        dislikedItems := s.dislikedItems.filter fun i => i.id != item.id }
  | .reject =>
      { likedItems := s.likedItems.filter fun i => i.id != item.id,
        dislikedItems :=
          if s.dislikedItems.any fun i => i.id == item.id then s.dislikedItems
          else s.dislikedItems ++ [{ item with feedback := some Feedback.reject }] }

/-- The invariant claimed for the two lists: no id occurs in both, and
no id occurs twice in either. -/
def feedbackInvariant (s : HState) : Prop :=
  (∀ a ∈ s.likedItems, ∀ b ∈ s.dislikedItems, a.id ≠ b.id) ∧
  (s.likedItems.map HItem.id).Nodup ∧
  (s.dislikedItems.map HItem.id).Nodup

/-- One `handleItemFeedback` step preserves the invariant. -/
theorem handleItemFeedback_preserves (s : HState) (item : HItem) (fb : Feedback)
    (h : feedbackInvariant s) : feedbackInvariant (handleItemFeedback s item fb) := by
  obtain ⟨hdisj, hnl, hnd⟩ := h
  cases fb with
  | accept =>
      by_cases hany : s.likedItems.any (fun i => i.id == item.id) = true
      · refine ⟨?_, ?_, ?_⟩
        · intro a ha b hb
          simp only [handleItemFeedback, hany, if_true] at ha hb
          exact hdisj a ha b (List.mem_of_mem_filter hb)
        · simpa only [handleItemFeedback, hany, if_true] using hnl
        · simp only [handleItemFeedback, hany, if_true]
          exact List.Nodup.sublist ((List.filter_sublist _).map HItem.id) hnd
      · have hnotin : item.id ∉ s.likedItems.map HItem.id := by
          simp only [List.any_eq_true, beq_iff_eq, not_exists, not_and] at hany
          simp only [List.mem_map, not_exists, not_and]
          exact hany
        refine ⟨?_, ?_, ?_⟩
        · intro a ha b hb
          simp only [handleItemFeedback, hany, if_false] at ha hb
          rcases List.mem_append.mp ha with ha' | ha'
          · exact hdisj a ha' b (List.mem_of_mem_filter hb)
          · have : a = { item with feedback := some Feedback.accept } := by
              simpa using ha'
            subst this
            have hbne := (List.mem_filter.mp hb).2
            simp only [bne_iff_ne, ne_eq] at hbne
            simpa using fun hc => hbne hc.symm
        · simp only [handleItemFeedback, hany, if_false, Bool.false_eq_true, List.map_append]
          refine List.Nodup.append hnl (by simp) ?_
          intro x hx hxmem
          simp only [List.map_cons, List.map_nil, List.mem_singleton] at hxmem
          subst hxmem
          exact hnotin hx
        · simp only [handleItemFeedback, hany, if_false]
          exact List.Nodup.sublist ((List.filter_sublist _).map HItem.id) hnd
  | reject =>
      by_cases hany : s.dislikedItems.any (fun i => i.id == item.id) = true
      · refine ⟨?_, ?_, ?_⟩
        · intro a ha b hb
          simp only [handleItemFeedback, hany, if_true] at ha hb
          exact hdisj a (List.mem_of_mem_filter ha) b hb
        · simp only [handleItemFeedback, hany, if_true]
          exact List.Nodup.sublist ((List.filter_sublist _).map HItem.id) hnl
        · simpa only [handleItemFeedback, hany, if_true] using hnd
      · have hnotin : item.id ∉ s.dislikedItems.map HItem.id := by
          simp only [List.any_eq_true, beq_iff_eq, not_exists, not_and] at hany
          simp only [List.mem_map, not_exists, not_and]
          exact hany
        refine ⟨?_, ?_, ?_⟩
        · intro a ha b hb
          simp only [handleItemFeedback, hany, if_false] at ha hb
          rcases List.mem_append.mp hb with hb' | hb'
          · exact hdisj a (List.mem_of_mem_filter ha) b hb'
          · have : b = { item with feedback := some Feedback.reject } := by
              simpa using hb'
            subst this
            have hane := (List.mem_filter.mp ha).2
            simp only [bne_iff_ne, ne_eq] at hane
            simpa using hane
        · simp only [handleItemFeedback, hany, if_false]
          exact List.Nodup.sublist ((List.filter_sublist _).map HItem.id) hnl
        · simp only [handleItemFeedback, hany, if_false, Bool.false_eq_true, List.map_append]
          refine List.Nodup.append hnd (by simp) ?_
          intro x hx hxmem
          simp only [List.map_cons, List.map_nil, List.mem_singleton] at hxmem
          subst hxmem
          exact hnotin hx

/-- C8: after any sequence of `handleItemFeedback` events starting from
the empty HomeScreen state, no item id appears in both `likedItems` and
`dislikedItems`, and neither list contains a duplicate id. -/
theorem homescreen_lists_disjoint (events : List (HItem × Feedback)) :
    feedbackInvariant
      (events.foldl (fun s e => handleItemFeedback s e.1 e.2) ⟨[], []⟩) := by
  suffices h : ∀ s, feedbackInvariant s →
      feedbackInvariant (events.foldl (fun s e => handleItemFeedback s e.1 e.2) s) by
    exact h ⟨[], []⟩ ⟨by simp, by simp, by simp⟩
  induction events with
  | nil => exact fun s hs => hs
  | cons e es ih =>
      intro s hs
      exact ih _ (handleItemFeedback_preserves s e.1 e.2 hs)

/-- C8 witness: the invariant after a concrete accept-then-reject
sequence on the same item. -/
theorem homescreen_lists_disjoint_witness :
    feedbackInvariant
      (([(⟨1, none, none⟩, Feedback.accept), (⟨1, none, none⟩, Feedback.reject)] :
          List (HItem × Feedback)).foldl
        (fun s e => handleItemFeedback s e.1 e.2) ⟨[], []⟩) :=
  homescreen_lists_disjoint
    [(⟨1, none, none⟩, Feedback.accept), (⟨1, none, none⟩, Feedback.reject)]

/-- The two list kinds the management panel moves items between. -/
inductive LD where
  | liked
  | disliked
deriving DecidableEq, Repr

/-- Select the HomeScreen list of the given kind. -/
def ldList (s : HState) : LD → List HItem
  | .liked => s.likedItems
  | .disliked => s.dislikedItems

/-- Embeds `handleMoveItem` from
src/frontend/memo-scholar/src/pages/HomeScreen.tsx, with the outcome of
the `updateLikeStatus` backend call made an explicit input (`apiFails`):
find the item in the source list; bail out unchanged when it is absent
or lacks a `liked_disliked_id`; otherwise optimistically remove it from
the source list and append the updated copy to the destination list;
when the backend call throws, revert by re-appending the original item
to the source list and filtering its id out of the destination list. -/
def handleMoveItem (s : HState) (id : ℕ) (fromT toT : LD) (apiFails : Bool) : HState :=
  match (ldList s fromT).find? (fun item => item.id == id) with
  | none => s
  | some item =>
      match item.liked_disliked_id with
      | none => s
      | some _ =>
          let fb := match toT with
            | LD.liked => Feedback.accept
            | LD.disliked => Feedback.reject
          let updatedItem := { item with feedback := some fb }
          let s1 := match fromT with
            | .liked => { s with likedItems := s.likedItems.filter fun it => it.id != id }
            | .disliked =>
                { s with dislikedItems := s.dislikedItems.filter fun it => it.id != id }
          let s2 := match toT with
            | .liked => { s1 with likedItems := s1.likedItems ++ [updatedItem] }
            | .disliked => { s1 with dislikedItems := s1.dislikedItems ++ [updatedItem] }
          if apiFails then
            match fromT with
            | .liked =>
                { likedItems := s2.likedItems ++ [item],
                  dislikedItems := s2.dislikedItems.filter fun it => it.id != id }
            | .disliked =>
                { likedItems := s2.likedItems.filter fun it => it.id != id,
                  dislikedItems := s2.dislikedItems ++ [item] }
          else s2

/-- C9: `handleMoveItem` is atomic with respect to backend failure —
(a) an item lacking a `liked_disliked_id` is never moved at all; (b) when
the item is found, has a database id, is moved between the two distinct
lists, and its id is not already in the destination list, a failing
`updateLikeStatus` call leaves the id-membership of both lists exactly
as before the call. -/
theorem move_item_atomic :
    (∀ (s : HState) (id : ℕ) (fromT toT : LD) (b : Bool) (item : HItem),
      (ldList s fromT).find? (fun it => it.id == id) = some item →
      item.liked_disliked_id = none →
      handleMoveItem s id fromT toT b = s) ∧
    (∀ (s : HState) (id : ℕ) (fromT toT : LD) (item : HItem) (k : ℕ),
      fromT ≠ toT →
      (ldList s fromT).find? (fun it => it.id == id) = some item →
      item.liked_disliked_id = some k →
      id ∉ (ldList s toT).map HItem.id →
      ∀ j : ℕ,
        (j ∈ (handleMoveItem s id fromT toT true).likedItems.map HItem.id ↔
          j ∈ s.likedItems.map HItem.id) ∧
        (j ∈ (handleMoveItem s id fromT toT true).dislikedItems.map HItem.id ↔
          j ∈ s.dislikedItems.map HItem.id)) := by
  constructor
  · intro s id fromT toT b item hfind hnone
    simp only [handleMoveItem, hfind, hnone]
  · intro s id fromT toT item k hne hfind hsome hdest j
    have hid : item.id = id := by
      have := List.find?_some hfind
      simpa using this
    have hmem : item ∈ ldList s fromT := List.mem_of_find?_eq_some hfind
    have hfilter_dest : ∀ l : List HItem, id ∉ l.map HItem.id →
        l.filter (fun it => it.id != id) = l := by
      intro l hl
      rw [List.filter_eq_self]
      intro a ha
      simp only [bne_iff_ne, ne_eq, decide_eq_true_eq]
      intro hc
      exact hl (hc ▸ List.mem_map_of_mem HItem.id ha)
    have hmap_src : ∀ l : List HItem, item ∈ l →
        ∀ x : ℕ, x ∈ (l.filter (fun it => it.id != id) ++ [item]).map HItem.id ↔
          x ∈ l.map HItem.id := by
      intro l hl x
      simp only [List.map_append, List.mem_append, List.mem_map, List.mem_filter,
        List.map_cons, List.map_nil, List.mem_singleton, bne_iff_ne, ne_eq,
        decide_eq_true_eq]
      constructor
      · rintro (⟨a, ⟨ha, -⟩, rfl⟩ | rfl)
        · exact ⟨a, ha, rfl⟩
        · exact ⟨item, hl, rfl⟩
      · rintro ⟨a, ha, rfl⟩
        by_cases hxa : a.id = id
        · right
          rw [hid, hxa]
        · exact Or.inl ⟨a, ⟨ha, hxa⟩, rfl⟩
    cases fromT with
    | liked =>
        cases toT with
        | liked => exact absurd rfl hne
        | disliked =>
            have hres : handleMoveItem s id LD.liked LD.disliked true =
                { likedItems := s.likedItems.filter (fun it => it.id != id) ++ [item],
                  dislikedItems :=
                    (s.dislikedItems ++
                      [{ item with feedback := some Feedback.reject }]).filter
                      (fun it => it.id != id) } := by
              simp only [handleMoveItem, hfind, hsome, if_true]
            rw [hres]
            constructor
            · exact hmap_src s.likedItems hmem j
            · rw [List.filter_append]
              have hupd : ([{ item with feedback := some Feedback.reject }] :
                  List HItem).filter (fun it => it.id != id) = [] := by
                simp [hid]
              rw [hupd, List.append_nil, hfilter_dest s.dislikedItems hdest]
    | disliked =>
        cases toT with
        | disliked => exact absurd rfl hne
        | liked =>
            have hres : handleMoveItem s id LD.disliked LD.liked true =
                { likedItems :=
                    (s.likedItems ++
                      [{ item with feedback := some Feedback.accept }]).filter
                      (fun it => it.id != id),
                  dislikedItems := s.dislikedItems.filter (fun it => it.id != id) ++ [item] } := by
              simp only [handleMoveItem, hfind, hsome, if_true]
            rw [hres]
            constructor
            · rw [List.filter_append]
              have hupd : ([{ item with feedback := some Feedback.accept }] :
                  List HItem).filter (fun it => it.id != id) = [] := by
                simp [hid]
              rw [hupd, List.append_nil, hfilter_dest s.likedItems hdest]
            · exact hmap_src s.dislikedItems hmem j

/-- C9 witness: moving the sole liked item to the disliked list while
the backend call fails restores both memberships, and an item without a
`liked_disliked_id` is never moved. -/
theorem move_item_atomic_witness :
    ((1 ∈ (handleMoveItem ⟨[⟨1, some 10, some Feedback.accept⟩], []⟩ 1
        LD.liked LD.disliked true).likedItems.map HItem.id ↔
      1 ∈ ([⟨1, some 10, some Feedback.accept⟩] : List HItem).map HItem.id) ∧
     (1 ∈ (handleMoveItem ⟨[⟨1, some 10, some Feedback.accept⟩], []⟩ 1
        LD.liked LD.disliked true).dislikedItems.map HItem.id ↔
      1 ∈ ([] : List HItem).map HItem.id)) ∧
    handleMoveItem ⟨[⟨2, none, none⟩], []⟩ 2 LD.liked LD.disliked true =
      ⟨[⟨2, none, none⟩], []⟩ := by
  constructor
  · exact move_item_atomic.2 ⟨[⟨1, some 10, some Feedback.accept⟩], []⟩ 1
      LD.liked LD.disliked ⟨1, some 10, some Feedback.accept⟩ 10
      (by decide) (by decide) rfl (by decide) 1
  · exact move_item_atomic.1 ⟨[⟨2, none, none⟩], []⟩ 2 LD.liked LD.disliked true
      ⟨2, none, none⟩ (by decide) rfl

/-! ## Number formatting (mock.ts formatNumber) -/

/-- The decimal digit character for a digit value 0..9. -/
def digitChar (d : ℕ) : Char := Char.ofNat (48 + d)

/-- Decimal digit characters of a natural number, most significant
first: the rendering of an integer JS number by
`Number.prototype.toString` (exact for every integer a double holds
exactly). -/
def decDigits (n : ℕ) : List Char :=
  if _h : n < 10 then [digitChar n]
  else decDigits (n / 10) ++ [digitChar (n % 10)]
termination_by n
decreasing_by exact Nat.div_lt_self (by omega) (by omega)

/-- The plain decimal string of a natural number. -/
def decimalRepr (n : ℕ) : String := ⟨decDigits n⟩

/-- Models `(num / divisor).toFixed(1)` from mock.ts by half-up rounding
of the exact rational num/divisor to one decimal digit.  (JS evaluates
this on binary doubles, whose nearest-double representation can move an
exact .x5 tie by one ulp; none of the properties proved below depend on
which way such a tie rounds.) -/
def toFixed1 (num divisor : ℕ) : String :=
  let t := (10 * num + divisor / 2) / divisor
  decimalRepr (t / 10) ++ "." ++ decimalRepr (t % 10)

/-- Embeds `formatNumber` from src/frontend/memo-scholar/src/lib/mock.ts:
numbers from 1,000,000 render as millions with one decimal and an `M`
suffix, numbers from 1,000 as thousands with one decimal and a `K`
suffix, and smaller numbers as their plain decimal string. -/
def formatNumber (num : ℕ) : String :=
  if 1000000 ≤ num then toFixed1 num 1000000 ++ "M"
  else if 1000 ≤ num then toFixed1 num 1000 ++ "K"
  else decimalRepr num

/-- Digit characters are never the decimal point. -/
theorem digitChar_ne_dot {d : ℕ} (h : d < 10) : digitChar d ≠ '.' := by
  interval_cases d <;> decide

/-- The plain decimal rendering of a natural number contains no decimal
point. -/
theorem dot_not_mem_decDigits (n : ℕ) : '.' ∉ decDigits n := by
  induction n using Nat.strong_induction_on with
  | _ n ih =>
      rw [decDigits]
      split
      · next h =>
          simp only [List.mem_singleton]
          exact fun hc => digitChar_ne_dot h hc.symm
      · next h =>
          intro hmem
          rcases List.mem_append.mp hmem with h1 | h1
          · exact ih (n / 10) (Nat.div_lt_self (by omega) (by omega)) h1
          · rw [List.mem_singleton] at h1
            exact digitChar_ne_dot (Nat.mod_lt n (by omega)) h1.symm

/-- A string containing a decimal point is never the plain decimal
rendering of a natural number. -/
theorem dot_string_ne_decimalRepr (x y s : String) (n : ℕ) :
    x ++ "." ++ y ++ s ≠ decimalRepr n := by
  intro he
  have hd := congrArg String.data he
  rw [String.data_append, String.data_append, String.data_append] at hd
  have hmem : '.' ∈ (decimalRepr n).data := by
    rw [← hd]
    have : '.' ∈ (("." : String)).data := by decide
    exact List.mem_append_left _ (List.mem_append_left _ (List.mem_append_right _ this))
  exact dot_not_mem_decDigits n hmem

/-- C10: `formatNumber` returns the plain decimal string exactly for
inputs 0..999; from 1,000 it renders n/1000 with exactly one decimal
digit (half-up rounded) followed by `K`; from 1,000,000 it renders
n/1000000 with exactly one decimal digit followed by `M`. -/
theorem formatNumber_spec (n : ℕ) :
    (n < 1000 → formatNumber n = decimalRepr n) ∧
    (1000 ≤ n → n < 1000000 → ∃ k d, d < 10 ∧
      formatNumber n = decimalRepr k ++ "." ++ decimalRepr d ++ "K" ∧
      (10 * k + d) * 1000 ≤ 10 * n + 500 ∧ 10 * n + 500 < (10 * k + d + 1) * 1000) ∧
    (1000000 ≤ n → ∃ k d, d < 10 ∧
      formatNumber n = decimalRepr k ++ "." ++ decimalRepr d ++ "M" ∧
      (10 * k + d) * 1000000 ≤ 10 * n + 500000 ∧
      10 * n + 500000 < (10 * k + d + 1) * 1000000) ∧
    (1000 ≤ n → formatNumber n ≠ decimalRepr n) := by
  refine ⟨?_, ?_, ?_, ?_⟩
  · intro h
    rw [formatNumber, if_neg (by omega), if_neg (by omega)]
  · intro h1 h2
    refine ⟨(10 * n + 500) / 1000 / 10, (10 * n + 500) / 1000 % 10,
      Nat.mod_lt _ (by omega), ?_, by omega, by omega⟩
    rw [formatNumber, if_neg (by omega), if_pos h1]
    rfl
  · intro h1
    refine ⟨(10 * n + 500000) / 1000000 / 10, (10 * n + 500000) / 1000000 % 10,
      Nat.mod_lt _ (by omega), ?_, by omega, by omega⟩
    rw [formatNumber, if_pos h1]
    rfl
  · intro h1
    rw [formatNumber]
    by_cases h6 : 1000000 ≤ n
    · rw [if_pos h6]
      exact dot_string_ne_decimalRepr
        (decimalRepr ((10 * n + 1000000 / 2) / 1000000 / 10))
        (decimalRepr ((10 * n + 1000000 / 2) / 1000000 % 10)) "M" n
    · rw [if_neg h6, if_pos h1]
      exact dot_string_ne_decimalRepr
        (decimalRepr ((10 * n + 1000 / 2) / 1000 / 10))
        (decimalRepr ((10 * n + 1000 / 2) / 1000 % 10)) "K" n

/-- C10 witness: the spec applied at 500 (plain), 1500 (thousands), and
2,000,000 (millions). -/
theorem formatNumber_spec_witness :
    formatNumber 500 = decimalRepr 500 ∧
    (∃ k d, d < 10 ∧
      formatNumber 1500 = decimalRepr k ++ "." ++ decimalRepr d ++ "K" ∧
      (10 * k + d) * 1000 ≤ 10 * 1500 + 500 ∧
      10 * 1500 + 500 < (10 * k + d + 1) * 1000) ∧
    (∃ k d, d < 10 ∧
      formatNumber 2000000 = decimalRepr k ++ "." ++ decimalRepr d ++ "M" ∧
      (10 * k + d) * 1000000 ≤ 10 * 2000000 + 500000 ∧
      10 * 2000000 + 500000 < (10 * k + d + 1) * 1000000) ∧
    formatNumber 1500 ≠ decimalRepr 1500 :=
  ⟨(formatNumber_spec 500).1 (by norm_num),
   (formatNumber_spec 1500).2.1 (by norm_num) (by norm_num),
   (formatNumber_spec 2000000).2.2.1 (by norm_num),
   (formatNumber_spec 1500).2.2.2 (by norm_num)⟩

end MemoScholar
